import Mathlib

/-!
Verification of the Dropbox-to-GitHub image migration pipeline
(repository alex-halloran/shopify-product-images).

The repository consists of two near-duplicate Python scripts,
`dropbox_to_github.py` and `simple_upload.py`, sharing the same helper
functions `get_download_url`, `get_safe_filename`, `download_image`,
`upload_to_github` and a batch-driven `process_csv`.  This file gives a
shallow embedding of those functions on `List Char` (Python strings) and
`List Nat` (byte strings), together with models of the external
collaborators (the HTTP transport and the GitHub contents API, which the
specification designates as external key-value interfaces).

Python strings are embedded as `List Char`; bytes as `List Nat` with each
element below 256.  CPython's `urllib.parse.urlparse` and the `os.path`
helpers are embedded faithfully for inputs free of tab, carriage-return
and newline characters (CPython first deletes those three characters; no
URL considered here contains them).
-/

set_option maxRecDepth 10000

abbrev Str := List Char

/-- Fuel-driven worker for `replaceAll`; the fuel is only there to make the
recursion structural, `replaceAll` always supplies enough of it. -/
def replaceAllAux (p r : List Char) : Nat → List Char → List Char
  | _, [] => []
  | 0, s => s
  | fuel + 1, c :: cs =>
    if p.isPrefixOf (c :: cs) then r ++ replaceAllAux p r fuel (cs.drop (p.length - 1))
    else c :: replaceAllAux p r fuel cs

/-- Python `str.replace(pat, rep)` for a nonempty pattern `p`: replace every
leftmost non-overlapping occurrence of `p` by `r`, scanning left to right.
(For the empty pattern Python inserts `rep` also at the end of the string;
this embedding is only ever applied to the literal pattern `"dl=0"`.) -/
def replaceAll (p r s : List Char) : List Char := replaceAllAux p r s.length s

theorem replaceAllAux_nil (p r : List Char) (f : Nat) : replaceAllAux p r f [] = [] := by
  cases f <;> rfl

theorem replaceAllAux_congr (p r : List Char) :
    ∀ f₁ f₂ s, s.length ≤ f₁ → s.length ≤ f₂ →
      replaceAllAux p r f₁ s = replaceAllAux p r f₂ s := by
  intro f₁
  induction f₁ with
  | zero =>
    intro f₂ s h₁ _
    have hs : s = [] := List.eq_nil_of_length_eq_zero (Nat.le_zero.mp h₁)
    subst hs
    rw [replaceAllAux_nil, replaceAllAux_nil]
  | succ n ih =>
    intro f₂ s h₁ h₂
    cases s with
    | nil => rw [replaceAllAux_nil, replaceAllAux_nil]
    | cons c cs =>
      cases f₂ with
      | zero => simp at h₂
      | succ f =>
        have hcs₁ : cs.length ≤ n := by simpa using h₁
        have hcs₂ : cs.length ≤ f := by simpa using h₂
        have hd : (cs.drop (p.length - 1)).length ≤ cs.length := by
          rw [List.length_drop]; exact Nat.sub_le _ _
        simp only [replaceAllAux]
        by_cases hp : p.isPrefixOf (c :: cs)
        · rw [if_pos hp, if_pos hp, ih f _ (le_trans hd hcs₁) (le_trans hd hcs₂)]
        · rw [if_neg hp, if_neg hp, ih f cs hcs₁ hcs₂]

theorem replaceAll_nil (p r : List Char) : replaceAll p r [] = [] := rfl

/-- One-step unfolding of Python `str.replace` on a nonempty string. -/
theorem replaceAll_cons (p r : List Char) (c : Char) (cs : List Char) :
    replaceAll p r (c :: cs) =
      if p.isPrefixOf (c :: cs) then r ++ replaceAll p r (cs.drop (p.length - 1))
      else c :: replaceAll p r cs := by
  show replaceAllAux p r (cs.length + 1) (c :: cs) = _
  simp only [replaceAllAux]
  by_cases hp : p.isPrefixOf (c :: cs)
  · rw [if_pos hp, if_pos hp,
      replaceAllAux_congr p r cs.length (cs.drop (p.length - 1)).length
        (cs.drop (p.length - 1)) (by rw [List.length_drop]; exact Nat.sub_le _ _) le_rfl]
    rfl
  · rw [if_neg hp, if_neg hp]
    rfl

/-- Embedding of `get_download_url` from `simple_upload.py` lines 29-32 and
`dropbox_to_github.py` lines 60-63:

    if 'dropbox.com' in url and 'dl=0' in url:
        return url.replace('dl=0', 'dl=1')
    return url

Python's `in` on strings is substring containment over the whole URL. -/
def get_download_url (url : Str) : Str :=
  if "dropbox.com".toList <:+: url ∧ "dl=0".toList <:+: url then
    replaceAll "dl=0".toList "dl=1".toList url
  else url

/-! ### CPython `urllib.parse` model -/

/-- The characters CPython allows in a URL scheme
(`urllib.parse.scheme_chars`). -/
def scheme_chars : Str :=
  "abcdefghijklmnopqrstuvwxyzABCDEFGHIJKLMNOPQRSTUVWXYZ0123456789+-.".toList

/-- ASCII alphabetic test used by CPython's scheme detection
(`url[0].isascii() and url[0].isalpha()`). -/
def isAsciiAlpha (c : Char) : Bool :=
  (97 ≤ c.toNat && c.toNat ≤ 122) || (65 ≤ c.toNat && c.toNat ≤ 90)

/-- Result of `urllib.parse.urlsplit` / `urlparse`. -/
structure UrlParts where
  scheme : Str
  netloc : Str
  path : Str
  query : Str
  fragment : Str
deriving Repr, DecidableEq

/-- CPython `urllib.parse.urlsplit` (for inputs without tab/CR/LF):
optionally strip a scheme `<alpha><scheme_chars>*:`; if the remainder
starts with `//`, the netloc extends to the next `/`, `?` or `#`;
an optional fragment starts at the first `#`; an optional query starts at
the first `?` of what is left. -/
def urlsplit (url : Str) : UrlParts :=
  let i := (url.takeWhile (fun c => c ≠ ':')).length
  let schemeOk := i < url.length ∧ 0 < i ∧
    isAsciiAlpha (url.headD ' ') = true ∧
    ∀ c ∈ url.take i, c ∈ scheme_chars
  let scheme := if schemeOk then (url.take i).map Char.toLower else []
  let rest0 := if schemeOk then url.drop (i + 1) else url
  let netloc :=
    if rest0.take 2 = ['/', '/'] then
      (rest0.drop 2).takeWhile (fun c => c ≠ '/' ∧ c ≠ '?' ∧ c ≠ '#')
    else []
  let rest1 :=
    if rest0.take 2 = ['/', '/'] then (rest0.drop 2).drop netloc.length
    else rest0
  let fragment :=
    if '#' ∈ rest1 then (rest1.dropWhile (fun c => c ≠ '#')).drop 1 else []
  let rest2 := if '#' ∈ rest1 then rest1.takeWhile (fun c => c ≠ '#') else rest1
  let query :=
    if '?' ∈ rest2 then (rest2.dropWhile (fun c => c ≠ '?')).drop 1 else []
  let path := if '?' ∈ rest2 then rest2.takeWhile (fun c => c ≠ '?') else rest2
  ⟨scheme, netloc, path, query, fragment⟩

/-- CPython `urlparse` additionally splits parameters off the path: if the
last path segment contains a `;`, everything from that `;` on is removed
from the path (returned separately as `params`, which the scripts never
read).  This returns the `path` attribute of `urlparse(url)`. -/
def urlparse_path (url : Str) : Str :=
  let p := (urlsplit url).path
  let lastSeg := (p.reverse.takeWhile (fun c => c ≠ '/')).reverse
  if ';' ∈ lastSeg then
    p.take (p.length - lastSeg.length) ++ lastSeg.takeWhile (fun c => c ≠ ';')
  else p

/-- The `netloc` attribute of `urlparse(url)` (the URL's host[:port] part). -/
def urlparse_netloc (url : Str) : Str := (urlsplit url).netloc

/-- POSIX `os.path.basename`: everything after the last `/` (the whole
string when it has no `/`). -/
def os_path_basename (p : Str) : Str :=
  (p.reverse.takeWhile (fun c => c ≠ '/')).reverse

/-- Python `s.split('?')[0]`: the part of `s` before its first `?`
(all of `s` when it has none). -/
def split_q_head (s : Str) : Str := s.takeWhile (fun c => c ≠ '?')

/-- The extension component of POSIX `os.path.splitext` for a slash-free
name: from the last `.` on, except that a name consisting only of dots up
to that last `.` (a leading-dot file such as `.bashrc`) has no extension. -/
def os_path_splitext_ext (p : Str) : Str :=
  let afterDot := p.reverse.takeWhile (fun c => c ≠ '.')
  if afterDot.length = p.length then []
  else
    let dotIdx := p.length - afterDot.length - 1
    if ∀ c ∈ p.take dotIdx, c = '.' then [] else p.drop dotIdx

/-! ### The output of `replace('dl=0', 'dl=1')` contains no further `dl=0` -/

theorem pre_head (c : Char) (l t : Str) (h : (c :: l) <+: t) : t.head? = some c := by
  obtain ⟨u, rfl⟩ := h
  rfl

theorem dl0_toList : "dl=0".toList = ['d', 'l', '=', '0'] := rfl

theorem dl1_toList : "dl=1".toList = ['d', 'l', '=', '1'] := rfl

theorem zero_pre_repl (t : Str)
    (h : ['0'] <+: replaceAll ['d', 'l', '=', '0'] ['d', 'l', '=', '1'] t) :
    ['0'] <+: t := by
  cases t with
  | nil => rw [replaceAll_nil] at h; exact h
  | cons c cs =>
    rw [replaceAll_cons] at h
    by_cases hp : (['d', 'l', '=', '0'] : Str).isPrefixOf (c :: cs)
    · rw [if_pos hp] at h
      have hh := pre_head '0' [] _ h
      rw [show ((['d', 'l', '=', '1'] : Str) ++
          replaceAll ['d', 'l', '=', '0'] ['d', 'l', '=', '1']
            (cs.drop ((['d', 'l', '=', '0'] : Str).length - 1))).head? = some 'd' from rfl] at hh
      exact absurd hh (by decide)
    · rw [if_neg hp] at h
      have hh := pre_head '0' [] _ h
      rw [show (c :: replaceAll ['d', 'l', '=', '0'] ['d', 'l', '=', '1'] cs).head? = some c
        from rfl] at hh
      obtain rfl : c = '0' := Option.some.inj hh
      exact ⟨cs, rfl⟩

theorem eq_zero_pre_repl (t : Str)
    (h : ['=', '0'] <+: replaceAll ['d', 'l', '=', '0'] ['d', 'l', '=', '1'] t) :
    ['=', '0'] <+: t := by
  cases t with
  | nil => rw [replaceAll_nil] at h; exact h
  | cons c cs =>
    rw [replaceAll_cons] at h
    by_cases hp : (['d', 'l', '=', '0'] : Str).isPrefixOf (c :: cs)
    · rw [if_pos hp] at h
      have hh := pre_head '=' ['0'] _ h
      rw [show ((['d', 'l', '=', '1'] : Str) ++
          replaceAll ['d', 'l', '=', '0'] ['d', 'l', '=', '1']
            (cs.drop ((['d', 'l', '=', '0'] : Str).length - 1))).head? = some 'd' from rfl] at hh
      exact absurd hh (by decide)
    · rw [if_neg hp] at h
      obtain ⟨u, hu⟩ := h
      simp only [List.cons_append, List.nil_append, List.cons.injEq] at hu
      obtain ⟨hc, htl⟩ := hu
      have h0 := zero_pre_repl cs ⟨u, htl⟩
      obtain ⟨v, hv⟩ := h0
      subst hc
      exact ⟨v, by rw [← hv]; rfl⟩

theorem l_eq_zero_pre_repl (t : Str)
    (h : ['l', '=', '0'] <+: replaceAll ['d', 'l', '=', '0'] ['d', 'l', '=', '1'] t) :
    ['l', '=', '0'] <+: t := by
  cases t with
  | nil => rw [replaceAll_nil] at h; exact h
  | cons c cs =>
    rw [replaceAll_cons] at h
    by_cases hp : (['d', 'l', '=', '0'] : Str).isPrefixOf (c :: cs)
    · rw [if_pos hp] at h
      have hh := pre_head 'l' ['=', '0'] _ h
      rw [show ((['d', 'l', '=', '1'] : Str) ++
          replaceAll ['d', 'l', '=', '0'] ['d', 'l', '=', '1']
            (cs.drop ((['d', 'l', '=', '0'] : Str).length - 1))).head? = some 'd' from rfl] at hh
      exact absurd hh (by decide)
    · rw [if_neg hp] at h
      obtain ⟨u, hu⟩ := h
      simp only [List.cons_append, List.nil_append, List.cons.injEq] at hu
      obtain ⟨hc, htl⟩ := hu
      have h0 := eq_zero_pre_repl cs ⟨u, htl⟩
      obtain ⟨v, hv⟩ := h0
      subst hc
      exact ⟨v, by rw [← hv]; rfl⟩

theorem repl_no_dl0_aux : ∀ n, ∀ s : Str, s.length ≤ n →
    ¬ (['d', 'l', '=', '0'] <:+: replaceAll ['d', 'l', '=', '0'] ['d', 'l', '=', '1'] s) := by
  intro n
  induction n with
  | zero =>
    intro s hs
    have : s = [] := List.eq_nil_of_length_eq_zero (Nat.le_zero.mp hs)
    subst this
    rw [replaceAll_nil]
    rintro ⟨a, b, hab⟩
    simp at hab
  | succ n ih =>
    intro s hs
    cases s with
    | nil =>
      rw [replaceAll_nil]
      rintro ⟨a, b, hab⟩
      simp at hab
    | cons c cs =>
      have hcs : cs.length ≤ n := by simpa using hs
      rw [replaceAll_cons]
      by_cases hp : (['d', 'l', '=', '0'] : Str).isPrefixOf (c :: cs)
      · rw [if_pos hp]
        rw [show (['d', 'l', '=', '1'] : Str) ++
            replaceAll ['d', 'l', '=', '0'] ['d', 'l', '=', '1']
              (cs.drop ((['d', 'l', '=', '0'] : Str).length - 1)) =
            'd' :: 'l' :: '=' :: '1' ::
            replaceAll ['d', 'l', '=', '0'] ['d', 'l', '=', '1'] (cs.drop 3) from rfl]
        intro h
        rcases List.infix_cons_iff.mp h with h1 | h
        · obtain ⟨-, h1⟩ := List.cons_prefix_cons.mp h1
          obtain ⟨-, h1⟩ := List.cons_prefix_cons.mp h1
          obtain ⟨-, h1⟩ := List.cons_prefix_cons.mp h1
          obtain ⟨h0, -⟩ := List.cons_prefix_cons.mp h1
          exact absurd h0 (by decide)
        rcases List.infix_cons_iff.mp h with h1 | h
        · obtain ⟨h0, -⟩ := List.cons_prefix_cons.mp h1
          exact absurd h0 (by decide)
        rcases List.infix_cons_iff.mp h with h1 | h
        · obtain ⟨h0, -⟩ := List.cons_prefix_cons.mp h1
          exact absurd h0 (by decide)
        rcases List.infix_cons_iff.mp h with h1 | h
        · obtain ⟨h0, -⟩ := List.cons_prefix_cons.mp h1
          exact absurd h0 (by decide)
        exact ih (cs.drop 3) (le_trans (by rw [List.length_drop]; exact Nat.sub_le _ _) hcs) h
      · rw [if_neg hp]
        intro h
        rcases List.infix_cons_iff.mp h with h1 | h
        · obtain ⟨hc, h2⟩ := List.cons_prefix_cons.mp h1
          have h3 := l_eq_zero_pre_repl cs h2
          apply hp
          rw [List.isPrefixOf_iff_prefix]
          obtain ⟨u, hu⟩ := h3
          subst hc
          exact ⟨u, by rw [← hu]; rfl⟩
        · exact ih cs hcs h

/-- After `url.replace('dl=0', 'dl=1')` the string contains no occurrence of
`dl=0` any more (the replacement text cannot recreate one, and `dl=0` cannot
overlap itself). -/
theorem replaceAll_dl0_clean (s : Str) :
    ¬ ("dl=0".toList <:+: replaceAll "dl=0".toList "dl=1".toList s) := by
  rw [dl0_toList, dl1_toList]
  exact repl_no_dl0_aux s.length s le_rfl

/-! ### Fixed-size chunking (Python slicing `l[i:i+n]` over `range(0, len(l), n)`,
also used for MD5's 64-byte blocks) -/

/-- Fuel-driven worker for `chunked`. -/
def chunkedAux {α : Type} (n : Nat) : Nat → List α → List (List α)
  | _, [] => []
  | 0, _ => []
  | fuel + 1, c :: cs => (c :: cs).take n :: chunkedAux n fuel (cs.drop (n - 1))

/-- Partition a list into consecutive chunks of size `n` (the last chunk may
be shorter), as Python's `[l[i:i+n] for i in range(0, len(l), n)]` for `n ≥ 1`. -/
def chunked {α : Type} (n : Nat) (l : List α) : List (List α) := chunkedAux n l.length l

theorem chunkedAux_nil {α : Type} (n f : Nat) : chunkedAux (α := α) n f [] = [] := by
  cases f <;> rfl

theorem chunkedAux_congr {α : Type} (n : Nat) :
    ∀ f₁ f₂ (l : List α), l.length ≤ f₁ → l.length ≤ f₂ →
      chunkedAux n f₁ l = chunkedAux n f₂ l := by
  intro f₁
  induction f₁ with
  | zero =>
    intro f₂ l h₁ _
    have hl : l = [] := List.eq_nil_of_length_eq_zero (Nat.le_zero.mp h₁)
    subst hl
    rw [chunkedAux_nil, chunkedAux_nil]
  | succ m ih =>
    intro f₂ l h₁ h₂
    cases l with
    | nil => rw [chunkedAux_nil, chunkedAux_nil]
    | cons c cs =>
      cases f₂ with
      | zero => simp at h₂
      | succ f =>
        have hcs₁ : cs.length ≤ m := by simpa using h₁
        have hcs₂ : cs.length ≤ f := by simpa using h₂
        have hd : (cs.drop (n - 1)).length ≤ cs.length := by
          rw [List.length_drop]; exact Nat.sub_le _ _
        simp only [chunkedAux]
        rw [ih f _ (le_trans hd hcs₁) (le_trans hd hcs₂)]

theorem chunked_cons {α : Type} (n : Nat) (c : α) (cs : List α) :
    chunked n (c :: cs) = (c :: cs).take n :: chunked n (cs.drop (n - 1)) := by
  show chunkedAux n (cs.length + 1) (c :: cs) = _
  simp only [chunkedAux]
  rw [chunkedAux_congr n cs.length (cs.drop (n - 1)).length (cs.drop (n - 1))
    (by rw [List.length_drop]; exact Nat.sub_le _ _) le_rfl]
  rfl

/-- Re-joining the chunks restores the original list (for chunk size ≥ 1);
this is what makes the batched loop visit every collected URL exactly once. -/
theorem chunked_join {α : Type} (n : Nat) (hn : 1 ≤ n) :
    ∀ fuel (l : List α), l.length ≤ fuel → (chunked n l).flatten = l := by
  intro fuel
  induction fuel with
  | zero =>
    intro l hl
    have : l = [] := List.eq_nil_of_length_eq_zero (Nat.le_zero.mp hl)
    subst this
    rfl
  | succ m ih =>
    intro l hl
    cases l with
    | nil => rfl
    | cons c cs =>
      rw [chunked_cons]
      have hrest : (cs.drop (n - 1)).length ≤ m := by
        rw [List.length_drop]
        have : cs.length ≤ m := by simpa using hl
        omega
      have hdrop : cs.drop (n - 1) = (c :: cs).drop n := by
        cases n with
        | zero => omega
        | succ k => rfl
      rw [List.flatten_cons, ih _ hrest, hdrop, List.take_append_drop]

/-! ### `hashlib.md5` and `urllib.parse.quote` -/

/-- UTF-8 encoding of one code point (one step of Python `str.encode()`). -/
def utf8EncodeChar (c : Char) : List Nat :=
  let n := c.toNat
  if n < 128 then [n]
  else if n < 2048 then [192 + n / 64, 128 + n % 64]
  else if n < 65536 then [224 + n / 4096, 128 + n / 64 % 64, 128 + n % 64]
  else [240 + n / 262144, 128 + n / 4096 % 64, 128 + n / 64 % 64, 128 + n % 64]

/-- Python `str.encode()` (UTF-8 bytes of a string). -/
def utf8Encode (s : Str) : List Nat := s.flatMap utf8EncodeChar

/-- Truncation to a 32-bit word. -/
def u32 (x : Nat) : Nat := x % 4294967296

/-- Left rotation of a 32-bit word (operand already below `2^32`). -/
def rotl32 (x n : Nat) : Nat := ((x <<< n) ||| (x >>> (32 - n))) % 4294967296

/-- Complement of a 32-bit word (operand already below `2^32`). -/
def u32not (x : Nat) : Nat := 4294967295 - x

/-- MD5 per-round shift amounts (RFC 1321). -/
def md5_s : List Nat :=
  [7, 12, 17, 22, 7, 12, 17, 22, 7, 12, 17, 22, 7, 12, 17, 22,
   5, 9, 14, 20, 5, 9, 14, 20, 5, 9, 14, 20, 5, 9, 14, 20,
   4, 11, 16, 23, 4, 11, 16, 23, 4, 11, 16, 23, 4, 11, 16, 23,
   6, 10, 15, 21, 6, 10, 15, 21, 6, 10, 15, 21, 6, 10, 15, 21]

/-- MD5 sine-derived constants (RFC 1321). -/
def md5_K : List Nat :=
  [0xd76aa478, 0xe8c7b756, 0x242070db, 0xc1bdceee,
   0xf57c0faf, 0x4787c62a, 0xa8304613, 0xfd469501,
   0x698098d8, 0x8b44f7af, 0xffff5bb1, 0x895cd7be,
   0x6b901122, 0xfd987193, 0xa679438e, 0x49b40821,
   0xf61e2562, 0xc040b340, 0x265e5a51, 0xe9b6c7aa,
   0xd62f105d, 0x02441453, 0xd8a1e681, 0xe7d3fbc8,
   0x21e1cde6, 0xc33707d6, 0xf4d50d87, 0x455a14ed,
   0xa9e3e905, 0xfcefa3f8, 0x676f02d9, 0x8d2a4c8a,
   0xfffa3942, 0x8771f681, 0x6d9d6122, 0xfde5380c,
   0xa4beea44, 0x4bdecfa9, 0xf6bb4b60, 0xbebfbc70,
   0x289b7ec6, 0xeaa127fa, 0xd4ef3085, 0x04881d05,
   0xd9d4d039, 0xe6db99e5, 0x1fa27cf8, 0xc4ac5665,
   0xf4292244, 0x432aff97, 0xab9423a7, 0xfc93a039,
   0x655b59c3, 0x8f0ccc92, 0xffeff47d, 0x85845dd1,
   0x6fa87e4f, 0xfe2ce6e0, 0xa3014314, 0x4e0811a1,
   0xf7537e82, 0xbd3af235, 0x2ad7d2bb, 0xeb86d391]

/-- MD5 round function (round selected by the index `i`). -/
def md5_F (i b c d : Nat) : Nat :=
  if i < 16 then (b &&& c) ||| (u32not b &&& d)
  else if i < 32 then (d &&& b) ||| (u32not d &&& c)
  else if i < 48 then b ^^^ c ^^^ d
  else c ^^^ (b ||| u32not d)

/-- MD5 message-word schedule. -/
def md5_g (i : Nat) : Nat :=
  if i < 16 then i
  else if i < 32 then (5 * i + 1) % 16
  else if i < 48 then (3 * i + 5) % 16
  else (7 * i) % 16

/-- Group a byte list into little-endian 32-bit words, four bytes at a time. -/
def leWords : List Nat → List Nat
  | b0 :: b1 :: b2 :: b3 :: rest =>
    (b0 + 256 * b1 + 65536 * b2 + 16777216 * b3) :: leWords rest
  | _ => []

/-- One MD5 round applied to the running state. -/
def md5_step (M : List Nat) (st : Nat × Nat × Nat × Nat) (i : Nat) :
    Nat × Nat × Nat × Nat :=
  let (a, b, c, d) := st
  let f := u32 (a + md5_F i b c d + md5_K.getD i 0 + M.getD (md5_g i) 0)
  (d, u32 (b + rotl32 f (md5_s.getD i 0)), b, c)

/-- Process one 64-byte block. -/
def md5_block (st : Nat × Nat × Nat × Nat) (blk : List Nat) : Nat × Nat × Nat × Nat :=
  let M := leWords blk
  let r := (List.range 64).foldl (md5_step M) st
  (u32 (st.1 + r.1), u32 (st.2.1 + r.2.1), u32 (st.2.2.1 + r.2.2.1), u32 (st.2.2.2 + r.2.2.2))

/-- MD5 padding: `0x80`, zeros to 56 mod 64, then the bit length as eight
little-endian bytes. -/
def md5_pad (msg : List Nat) : List Nat :=
  let ml := msg.length
  let bitLen := (8 * ml) % 18446744073709551616
  msg ++ 128 :: List.replicate ((120 - (ml + 1) % 64) % 64) 0 ++
    (List.range 8).map (fun k => (bitLen >>> (8 * k)) % 256)

/-- Render a 32-bit word as four little-endian bytes. -/
def word_le_bytes (w : Nat) : List Nat :=
  [w % 256, w / 256 % 256, w / 65536 % 256, w / 16777216 % 256]

/-- The 16-byte MD5 digest of a byte string (RFC 1321, as `hashlib.md5`). -/
def md5_digest_bytes (msg : List Nat) : List Nat :=
  let st := (chunked 64 (md5_pad msg)).foldl md5_block
    (0x67452301, 0xefcdab89, 0x98badcfe, 0x10325476)
  word_le_bytes st.1 ++ word_le_bytes st.2.1 ++ word_le_bytes st.2.2.1 ++
    word_le_bytes st.2.2.2

/-- One byte as two lowercase hex characters. -/
def byte_hex_lower (b : Nat) : Str :=
  let d := fun n => if n < 10 then Char.ofNat (48 + n) else Char.ofNat (87 + n)
  [d (b / 16), d (b % 16)]

/-- Python `hashlib.md5(url.encode()).hexdigest()`. -/
def md5_hexdigest (url : Str) : Str := (md5_digest_bytes (utf8Encode url)).flatMap byte_hex_lower

/-- Embedding of `get_safe_filename` from `simple_upload.py` lines 35-47 and
`dropbox_to_github.py` lines 66-78:

    parsed_url = urlparse(url)
    path = parsed_url.path
    filename = os.path.basename(path).split('?')[0]
    if len(filename) > 100 or '?' in filename or '&' in filename:
        hash_object = hashlib.md5(url.encode())
        file_ext = os.path.splitext(filename)[1] or '.jpg'
        filename = hash_object.hexdigest() + file_ext
    return filename
-/
def get_safe_filename (url : Str) : Str :=
  let path := urlparse_path url
  let filename := split_q_head (os_path_basename path)
  if 100 < filename.length ∨ '?' ∈ filename ∨ '&' ∈ filename then
    md5_hexdigest url ++
      (if os_path_splitext_ext filename = [] then ".jpg".toList else os_path_splitext_ext filename)
  else filename

/-- Bytes `urllib.parse.quote` leaves unescaped with the default `safe='/'`:
ASCII alphanumerics, `_`, `.`, `-`, `~` and `/`. -/
def quote_safe (b : Nat) : Bool :=
  (48 ≤ b && b ≤ 57) || (65 ≤ b && b ≤ 90) || (97 ≤ b && b ≤ 122) ||
  b == 95 || b == 46 || b == 45 || b == 126 || b == 47

/-- One uppercase hex digit. -/
def hex_upper (n : Nat) : Char := if n < 10 then Char.ofNat (48 + n) else Char.ofNat (55 + n)

/-- Python `urllib.parse.quote(s)` (default `safe='/'`): percent-escape every unsafe
UTF-8 byte as `%XX` with uppercase hex. -/
def quote (s : Str) : Str :=
  (utf8Encode s).flatMap (fun b =>
    if quote_safe b then [Char.ofNat b] else ['%', hex_upper (b / 16), hex_upper (b % 16)])

/-! ### The pipeline: fetcher, publisher, batch loop, table rewriter

External collaborators are modelled as the specification directs: the HTTP
transport is an oracle from URL and timeout to an outcome, and the GitHub
contents API is a key-value store from repository path to blob. -/

/-- Python bytes. -/
abbrev Blob := List Nat

/-- Outcome of one `requests.get` call: a response with a status code and a
body, or a raised transport exception (connection error, timeout, ...). -/
inductive HttpResponse where
  | ok (status : Nat) (content : Blob)
  | exn
deriving Repr, DecidableEq

/-- Embedding of `download_image` from `simple_upload.py` lines 50-58 and
`dropbox_to_github.py` lines 81-89:

    try:
        download_url = get_download_url(url)
        response = requests.get(download_url, stream=True, timeout=30)
        response.raise_for_status()
        return response.content
    except Exception as e:
        print(f"Error downloading ...")
        return None

The transport is the oracle `http` (URL and timeout to outcome); the call
always passes timeout 30.  `raise_for_status` raises exactly for status
codes 400-599; every exception is caught and becomes `none`. -/
def download_image (http : Str → Nat → HttpResponse) (url : Str) : Option Blob :=
  match http (get_download_url url) 30 with
  | .ok s content => if 400 ≤ s ∧ s < 600 then none else some content
  | .exn => none

/-- Python `dict` lookup (also used for the existence probe against the
store): first entry with the given key. -/
def assocGet {β : Type} : List (Str × β) → Str → Option β
  | [], _ => none
  | (k', v) :: rest, k => if k' = k then some v else assocGet rest k

/-- Python `dict` assignment `m[k] = v`: overwrite in place when the key is
present, append otherwise. -/
def assocSet {β : Type} : List (Str × β) → Str → β → List (Str × β)
  | [], k, v => [(k, v)]
  | (k', v') :: rest, k, v =>
    if k' = k then (k, v) :: rest else (k', v') :: assocSet rest k v

/-- The remote content store (the `images/` tree of the GitHub repository on
the target branch), a mapping from repository path to stored blob. -/
structure Store where
  entries : List (Str × Blob)
deriving DecidableEq

/-- Which branch of the publisher ran: `create_file` (object was absent) or
`update_file` with the existing object's sha (object was present). -/
inductive PublishAction where
  | created
  | updated
deriving Repr, DecidableEq

/-- Constant `GITHUB_REPO = "alex-halloran/shopify-product-images"` split at `/`. -/
def GITHUB_USER : Str := "alex-halloran".toList

def GITHUB_REPO_NAME : Str := "shopify-product-images".toList

/-- The published public URL,
`f"https://{owner}.github.io/{repo}/images/{quote(filename)}"`
(`dropbox_to_github.py` line 118; `simple_upload.py` line 108 builds the
same URL without the `quote`). -/
def github_pages_url (filename : Str) : Str :=
  "https://".toList ++ GITHUB_USER ++ ".github.io/".toList ++ GITHUB_REPO_NAME ++
    "/images/".toList ++ quote filename

/-- Embedding of `upload_to_github` from `simple_upload.py` lines 61-116 and
`dropbox_to_github.py` lines 92-123: derive the safe filename, fetch the
image (`if not image_data: return url, None`, so an empty body also fails),
probe the store for `images/<filename>`, then update the existing object
(passing its sha) when the probe succeeded and create it otherwise, and
report the public URL.  The returned `PublishAction` records which branch
ran. -/
def upload_to_github (http : Str → Nat → HttpResponse) (st : Store) (url : Str) :
    Store × (Str × Option Str) × Option PublishAction :=
  let filename := get_safe_filename url
  let path := "images/".toList ++ filename
  match download_image http url with
  | none => (st, (url, none), none)
  | some data =>
    if data = [] then (st, (url, none), none)
    else
      match assocGet st.entries path with
      | some _ =>
        (⟨assocSet st.entries path data⟩, (url, some (github_pages_url filename)),
          some PublishAction.updated)
      | none =>
        (⟨assocSet st.entries path data⟩, (url, some (github_pages_url filename)),
          some PublishAction.created)

/-- The per-URL processing loop of `process_csv` (`simple_upload.py` lines
145-148, the `ThreadPoolExecutor` fan-out of `dropbox_to_github.py` lines
151-165 sequentialized): each URL is submitted to `upload_to_github` once,
and each success is merged into the `url_mappings` dictionary. -/
def process_urls (http : Str → Nat → HttpResponse) :
    Store → List Str → List (Str × Str) → Store × List (Str × Str)
  | st, [], m => (st, m)
  | st, u :: rest, m =>
    match upload_to_github http st u with
    | (st', (orig, some g), _) => process_urls http st' rest (assocSet m orig g)
    | (st', (_, none), _) => process_urls http st' rest m

/-- One input row, restricted to the two recognized image columns.  A `none`
cell means the column is absent from the table (`'Image Src' in row` is
false); an empty string means the column is present but blank. -/
structure Row where
  image_src : Option Str
  variant_image : Option Str
deriving DecidableEq

/-- One cell of the COLLECT phase of `process_csv`:
`if 'Image Src' in row and row['Image Src'] and 'dropbox.com' in row['Image Src']:
dropbox_urls.add(row['Image Src'])`.  The Python `set` is modelled as a
list with insert-if-absent, so membership agrees with the set and the
order is the insertion order. -/
def collect_cell (acc : List Str) (cell : Option Str) : List Str :=
  match cell with
  | some v =>
    if v ≠ [] ∧ "dropbox.com".toList <:+: v ∧ v ∉ acc then acc ++ [v] else acc
  | none => acc

/-- One row of the COLLECT phase: both recognized columns in source order. -/
def collect_step (acc : List Str) (r : Row) : List Str :=
  collect_cell (collect_cell acc r.image_src) r.variant_image

/-- The COLLECT phase of `process_csv` (`simple_upload.py` lines 124-134,
`dropbox_to_github.py` lines 129-139): scan both recognized columns of every
row, keep non-empty values containing `dropbox.com`, and deduplicate. -/
def collect_dropbox_urls (rows : List Row) : List Str :=
  rows.foldl collect_step []

/-- Constant `BATCH_SIZE = 10` (`simple_upload.py` line 26; `dropbox_to_github.py`
uses 50, which changes nothing below since only positivity matters). -/
def BATCH_SIZE : Nat := 10

/-- The PROCESS_BATCHES phase: the batched loop
`for i in range(0, len(dropbox_urls), BATCH_SIZE): batch = dropbox_urls[i:i+BATCH_SIZE]`
visits exactly the concatenation of the chunks.  The inter-batch
`time.sleep(10)` has no observable effect on the computed state. -/
def process_csv_uploads (http : Str → Nat → HttpResponse) (st : Store) (rows : List Row) :
    Store × List (Str × Str) :=
  process_urls http st (chunked BATCH_SIZE (collect_dropbox_urls rows)).flatten []

/-- One output row: the input row plus the two new mapped-URL columns. -/
structure OutRow where
  row : Row
  github_image_src : Str
  github_variant_image : Str
deriving DecidableEq

/-- The rewrite step of `process_csv` for one row (`simple_upload.py` lines
168-180):

    if 'Image Src' in row and row['Image Src'] in url_mappings:
        row['GitHub_Image_Src'] = url_mappings[row['Image Src']]
    else:
        row['GitHub_Image_Src'] = ''

and the same for `Variant Image` / `GitHub_Variant_Image`.
(`dropbox_to_github.py` lines 173-177 instead falls back to the original
value; the specification fixes the empty-string behaviour.) -/
def rewrite_row (m : List (Str × Str)) (r : Row) : OutRow :=
  { row := r
    github_image_src :=
      match r.image_src with
      | some v => match assocGet m v with | some g => g | none => []
      | none => []
    github_variant_image :=
      match r.variant_image with
      | some v => match assocGet m v with | some g => g | none => []
      | none => [] }

/-- The FINALIZE phase: every row rewritten against the accumulated mapping. -/
def rewrite_table (m : List (Str × Str)) (rows : List Row) : List OutRow :=
  rows.map (rewrite_row m)

/-- The whole `process_csv` run: collect, batch-process, rewrite. -/
def process_csv (http : Str → Nat → HttpResponse) (st : Store) (rows : List Row) :
    Store × List (Str × Str) × List OutRow :=
  let r := process_csv_uploads http st rows
  (r.1, r.2, rewrite_table r.2 rows)

/-- The `__main__` block (`simple_upload.py` lines 202-210,
`dropbox_to_github.py` lines 251-259):

    if len(sys.argv) != 2:
        print("Usage: python simple_upload.py your_shopify_import.csv")
        sys.exit(1)
    csv_file = sys.argv[1]
    process_csv(csv_file)

`argv` includes the script name.  On a bad argument count the process
prints the usage line and exits 1 before doing any work (`none` result);
otherwise `process_csv` runs and the interpreter exits 0 — per-asset
failures only shape the mapping, never the exit status. -/
def main_invocation (http : Str → Nat → HttpResponse) (st : Store) (argv : List Str)
    (rows : List Row) : Nat × Option (Store × List (Str × Str) × List OutRow) :=
  if argv.length ≠ 2 then (1, none) else (0, some (process_csv http st rows))

/-! ### Helper lemmas about the association maps, the digest rendering and
the COLLECT phase -/

theorem assocGet_set_self {β : Type} :
    ∀ (m : List (Str × β)) (k : Str) (v : β), assocGet (assocSet m k v) k = some v := by
  intro m k v
  induction m with
  | nil => simp [assocSet, assocGet]
  | cons e rest ih =>
    obtain ⟨k', v'⟩ := e
    by_cases hk : k' = k
    · simp [assocSet, assocGet, hk]
    · simp [assocSet, assocGet, hk, ih]

theorem assocGet_set {β : Type} :
    ∀ (m : List (Str × β)) (k k' : Str) (v : β),
      assocGet (assocSet m k v) k' = if k = k' then some v else assocGet m k' := by
  intro m k k' v
  induction m with
  | nil =>
    by_cases h : k = k'
    · simp [assocSet, assocGet, h]
    · simp [assocSet, assocGet, h]
  | cons e rest ih =>
    obtain ⟨k'', v''⟩ := e
    by_cases h1 : k'' = k
    · subst h1
      by_cases h2 : k'' = k'
      · simp [assocSet, assocGet, h2]
      · simp [assocSet, assocGet, h2]
    · by_cases h2 : k'' = k'
      · subst h2
        have : ¬ k = k'' := fun h => h1 h.symm
        simp [assocSet, assocGet, h1, this]
      · simp [assocSet, assocGet, h1, h2, ih]

theorem assocSet_keys_of_found {β : Type} :
    ∀ (m : List (Str × β)) (k : Str) (v w : β), assocGet m k = some w →
      (assocSet m k v).map Prod.fst = m.map Prod.fst := by
  intro m k v w
  induction m with
  | nil => intro h; simp [assocGet] at h
  | cons e rest ih =>
    obtain ⟨k', v'⟩ := e
    intro h
    by_cases hk : k' = k
    · simp [assocSet, hk]
    · simp only [assocGet, if_neg hk] at h
      simp [assocSet, hk, ih h]

theorem md5_digest_bytes_length (msg : List Nat) : (md5_digest_bytes msg).length = 16 := by
  simp [md5_digest_bytes, word_le_bytes]

theorem md5_digest_bytes_lt (msg : List Nat) : ∀ b ∈ md5_digest_bytes msg, b < 256 := by
  intro b hb
  simp only [md5_digest_bytes, word_le_bytes, List.mem_append, List.mem_cons,
    List.not_mem_nil, or_false] at hb
  omega

theorem hex_len_flatMap : ∀ l : List Nat, (l.flatMap byte_hex_lower).length = 2 * l.length := by
  intro l
  induction l with
  | nil => rfl
  | cons b bs ih =>
    simp only [List.flatMap_cons, List.length_append, ih, byte_hex_lower, List.length_cons,
      List.length_nil]
    omega

theorem md5_hexdigest_length (u : Str) : (md5_hexdigest u).length = 32 := by
  unfold md5_hexdigest
  rw [hex_len_flatMap, md5_digest_bytes_length]

theorem hex_digit_mem (n : Nat) (hn : n < 16) :
    (if n < 10 then Char.ofNat (48 + n) else Char.ofNat (87 + n)) ∈
      "0123456789abcdef".toList := by
  interval_cases n <;> decide

theorem md5_hexdigest_mem (u : Str) : ∀ c ∈ md5_hexdigest u, c ∈ "0123456789abcdef".toList := by
  intro c hc
  unfold md5_hexdigest at hc
  rw [List.mem_flatMap] at hc
  obtain ⟨b, hb, hcb⟩ := hc
  have hlt : b < 256 := md5_digest_bytes_lt _ b hb
  simp only [byte_hex_lower, List.mem_cons, List.not_mem_nil, or_false] at hcb
  rcases hcb with rfl | rfl
  · exact hex_digit_mem _ (by omega)
  · exact hex_digit_mem _ (by omega)

theorem nodup_append_single (a : List Str) (v : Str) (h : a.Nodup) (hv : v ∉ a) :
    (a ++ [v]).Nodup := by
  rw [List.nodup_append]
  exact ⟨h, List.nodup_singleton v, by simpa [List.disjoint_right] using hv⟩

theorem collect_cell_nodup (a : List Str) (o : Option Str) (h : a.Nodup) :
    (collect_cell a o).Nodup := by
  cases o with
  | none => exact h
  | some v =>
    by_cases hc : v ≠ [] ∧ "dropbox.com".toList <:+: v ∧ v ∉ a
    · rw [collect_cell, if_pos hc]
      exact nodup_append_single a v h hc.2.2
    · rw [collect_cell, if_neg hc]
      exact h

theorem collect_fold_nodup :
    ∀ (rows : List Row) (acc : List Str), acc.Nodup → (rows.foldl collect_step acc).Nodup := by
  intro rows
  induction rows with
  | nil => intro acc h; exact h
  | cons r rest ih =>
    intro acc h
    exact ih _ (collect_cell_nodup _ _ (collect_cell_nodup _ _ h))

/-! ### Helper lemmas about the publisher and the processing loop -/

theorem upload_to_github_fail (http : Str → Nat → HttpResponse) (st : Store) (u : Str)
    (h : download_image http u = none) :
    upload_to_github http st u = (st, (u, none), none) := by
  simp only [upload_to_github]
  rw [h]

theorem upload_to_github_success (http : Str → Nat → HttpResponse) (st : Store) (u : Str)
    (d : Blob) (hd : download_image http u = some d) (hne : d ≠ []) :
    upload_to_github http st u =
      (⟨assocSet st.entries ("images/".toList ++ get_safe_filename u) d⟩,
       (u, some (github_pages_url (get_safe_filename u))),
       some (if (assocGet st.entries ("images/".toList ++ get_safe_filename u)).isSome
             then PublishAction.updated else PublishAction.created)) := by
  simp only [upload_to_github]
  rw [hd]
  simp only [if_neg hne]
  cases hg : assocGet st.entries ("images/".toList ++ get_safe_filename u) with
  | some w => simp [hg]
  | none => simp [hg]

theorem upload_result_shape (http : Str → Nat → HttpResponse) (st : Store) (u : Str) :
    (upload_to_github http st u).2.1.1 = u ∧
    ((upload_to_github http st u).2.1.2 = none ∨
     (upload_to_github http st u).2.1.2 = some (github_pages_url (get_safe_filename u))) := by
  simp only [upload_to_github]
  cases download_image http u with
  | none => simp
  | some d =>
    by_cases hd : d = []
    · simp [hd]
    · cases assocGet st.entries ("images/".toList ++ get_safe_filename u) <;> simp [hd]

theorem process_urls_inv (http : Str → Nat → HttpResponse) :
    ∀ (urls : List Str) (st : Store) (m : List (Str × Str)),
      (∀ k g, assocGet m k = some g → g = github_pages_url (get_safe_filename k)) →
      (∀ k g, assocGet (process_urls http st urls m).2 k = some g →
        g = github_pages_url (get_safe_filename k)) := by
  intro urls
  induction urls with
  | nil => intro st m hm; exact hm
  | cons u rest ih =>
    intro st m hm
    rcases hu : upload_to_github http st u with ⟨st', og, act⟩
    rcases og with ⟨orig, og⟩
    have hshape := upload_result_shape http st u
    rw [hu] at hshape
    obtain ⟨horig, hog⟩ := hshape
    simp only at horig hog
    subst horig
    simp only [process_urls]
    rw [hu]
    rcases hog with hog | hog <;> subst hog
    · exact ih st' m hm
    · apply ih st'
      intro k g hk
      rw [assocGet_set] at hk
      by_cases hku : orig = k
      · subst hku
        rw [if_pos rfl] at hk
        exact (Option.some.inj hk).symm
      · rw [if_neg hku] at hk
        exact hm k g hk

theorem process_urls_mono (http : Str → Nat → HttpResponse) :
    ∀ (urls : List Str) (st : Store) (m : List (Str × Str)) (k : Str) (g : Str),
      assocGet m k = some g →
      ∃ g', assocGet (process_urls http st urls m).2 k = some g' := by
  intro urls
  induction urls with
  | nil => intro st m k g h; exact ⟨g, h⟩
  | cons u rest ih =>
    intro st m k g h
    rcases hu : upload_to_github http st u with ⟨st', og, act⟩
    rcases og with ⟨orig, og⟩
    simp only [process_urls]
    rw [hu]
    cases og with
    | none => exact ih st' m k g h
    | some gg =>
      by_cases hk : orig = k
      · subst hk
        exact ih st' _ orig gg (by rw [assocGet_set, if_pos rfl])
      · exact ih st' _ k g (by rw [assocGet_set, if_neg hk]; exact h)

theorem process_urls_present (http : Str → Nat → HttpResponse) :
    ∀ (urls : List Str) (st : Store) (m : List (Str × Str)) (u : Str), u ∈ urls →
      (∃ d, download_image http u = some d ∧ d ≠ []) →
      ∃ g, assocGet (process_urls http st urls m).2 u = some g := by
  intro urls
  induction urls with
  | nil => intro st m u hmem; cases hmem
  | cons v rest ih =>
    intro st m u hmem hd
    rcases List.mem_cons.mp hmem with rfl | hmem'
    · obtain ⟨d, hdl, hne⟩ := hd
      simp only [process_urls]
      rw [upload_to_github_success http st u d hdl hne]
      exact process_urls_mono http rest _ _ u _ (by rw [assocGet_set, if_pos rfl])
    · rcases hu : upload_to_github http st v with ⟨st', og, act⟩
      rcases og with ⟨orig, og⟩
      simp only [process_urls]
      rw [hu]
      cases og with
      | none => exact ih st' m u hmem' hd
      | some gg => exact ih st' _ u hmem' hd

theorem github_pages_url_split (fn : Str) :
    github_pages_url fn =
      "https://alex-halloran.github.io/shopify-product-images/".toList ++
        ("images/".toList ++ quote fn) := rfl

theorem count_nodup_eq : ∀ (l : List Str), l.Nodup → ∀ u : Str,
    l.count u = if u ∈ l then 1 else 0 := by
  intro l
  induction l with
  | nil => intro _ u; simp
  | cons a l ih =>
    intro hnd u
    have hnd' : l.Nodup := hnd.of_cons
    have ha : a ∉ l := (List.nodup_cons.mp hnd).1
    by_cases hu : u = a
    · subst hu
      have hz : l.count u = 0 := by
        rw [List.count_eq_zero]
        exact ha
      simp [List.count_cons_self, hz]
    · rw [List.count_cons_of_ne hu, ih hnd' u]
      by_cases hm : u ∈ l
      · rw [if_pos hm, if_pos (List.mem_cons_of_mem a hm)]
      · rw [if_neg hm, if_neg (fun hc => by
          rcases List.mem_cons.mp hc with h | h
          · exact hu h
          · exact hm h)]

/-! ### Claims about the URL normalizer -/

/-- The candidate filename computed by `get_safe_filename` before the hash
test: `os.path.basename(urlparse(url).path).split('?')[0]`. -/
def filename_candidate (url : Str) : Str :=
  split_q_head (os_path_basename (urlparse_path url))

theorem get_safe_filename_eq (u : Str) :
    get_safe_filename u =
      if 100 < (filename_candidate u).length ∨ '?' ∈ filename_candidate u ∨
          '&' ∈ filename_candidate u then
        md5_hexdigest u ++
          (if os_path_splitext_ext (filename_candidate u) = [] then ".jpg".toList
           else os_path_splitext_ext (filename_candidate u))
      else filename_candidate u := rfl

/-- C1 counterexample: the specification's own example pair
`https://www.dropbox.com/a/photo.jpg?x=1&y=2` and
`https://www.dropbox.com/b/photo.jpg?x=3&y=4` are distinct URLs sharing the
last path segment, yet `get_safe_filename` maps both to the same unhashed
name `photo.jpg`: `urlparse` already separates the query from the path, so
the `&` test never fires and the hashing branch is not taken. -/
theorem get_safe_filename_shared_basename_collides :
    get_safe_filename "https://www.dropbox.com/a/photo.jpg?x=1&y=2".toList =
      "photo.jpg".toList ∧
    get_safe_filename "https://www.dropbox.com/b/photo.jpg?x=3&y=4".toList =
      "photo.jpg".toList ∧
    "https://www.dropbox.com/a/photo.jpg?x=1&y=2".toList ≠
      "https://www.dropbox.com/b/photo.jpg?x=3&y=4".toList ∧
    get_safe_filename "https://www.dropbox.com/a/photo.jpg?x=1&y=2".toList =
      get_safe_filename "https://www.dropbox.com/b/photo.jpg?x=3&y=4".toList := by decide

/-- C1 (amended): `get_safe_filename` is deterministic (it is a pure function
of the URL), but two URLs with the same candidate filename — in particular
distinct URLs sharing the last path segment and differing only in their
query strings — receive the SAME derived name whenever that candidate does
not trigger the hashing branch (length over 100, or a raw `?` or `&` in the
candidate); the query string itself never reaches the candidate because
`urlparse` strips it. -/
theorem get_safe_filename_query_stripped_equal (u₁ u₂ : Str)
    (hcand : filename_candidate u₁ = filename_candidate u₂)
    (hno : ¬ (100 < (filename_candidate u₁).length ∨ '?' ∈ filename_candidate u₁ ∨
      '&' ∈ filename_candidate u₁)) :
    get_safe_filename u₁ = get_safe_filename u₂ ∧
    get_safe_filename u₁ = filename_candidate u₁ := by
  have hno₂ : ¬ (100 < (filename_candidate u₂).length ∨ '?' ∈ filename_candidate u₂ ∨
      '&' ∈ filename_candidate u₂) := by rw [← hcand]; exact hno
  rw [get_safe_filename_eq u₁, get_safe_filename_eq u₂, if_neg hno, if_neg hno₂]
  exact ⟨hcand, rfl⟩

theorem get_safe_filename_query_stripped_equal_witness :
    filename_candidate "https://www.dropbox.com/a/photo.jpg?x=1&y=2".toList =
      filename_candidate "https://www.dropbox.com/b/photo.jpg?x=3&y=4".toList ∧
    ¬ (100 < (filename_candidate "https://www.dropbox.com/a/photo.jpg?x=1&y=2".toList).length ∨
      '?' ∈ filename_candidate "https://www.dropbox.com/a/photo.jpg?x=1&y=2".toList ∨
      '&' ∈ filename_candidate "https://www.dropbox.com/a/photo.jpg?x=1&y=2".toList) ∧
    (get_safe_filename "https://www.dropbox.com/a/photo.jpg?x=1&y=2".toList =
       get_safe_filename "https://www.dropbox.com/b/photo.jpg?x=3&y=4".toList ∧
     get_safe_filename "https://www.dropbox.com/a/photo.jpg?x=1&y=2".toList =
       filename_candidate "https://www.dropbox.com/a/photo.jpg?x=1&y=2".toList) :=
  ⟨by decide, by decide,
    get_safe_filename_query_stripped_equal _ _ (by decide) (by decide)⟩

/-- C2 counterexample: `get_download_url` tests substring containment over
the whole URL, not the host and query.  This URL's host is `example.com`
(`dropbox.com` only occurs inside its query), so by the claim it should be
returned unchanged — yet the code rewrites it, and it rewrites BOTH
occurrences of `dl=0`, not exactly one. -/
theorem get_download_url_nonhost_rewrites :
    urlparse_netloc "https://example.com/x?u=dropbox.com&a=dl=0&b=dl=0".toList =
      "example.com".toList ∧
    get_download_url "https://example.com/x?u=dropbox.com&a=dl=0&b=dl=0".toList =
      "https://example.com/x?u=dropbox.com&a=dl=1&b=dl=1".toList ∧
    get_download_url "https://example.com/x?u=dropbox.com&a=dl=0&b=dl=0".toList ≠
      "https://example.com/x?u=dropbox.com&a=dl=0&b=dl=0".toList := by decide

/-- C2 (amended): whenever the URL contains the substrings `dropbox.com` and
`dl=0` anywhere (host or not), `get_download_url` replaces every occurrence
of `dl=0` by `dl=1` — after which no occurrence of `dl=0` remains — and for
every other URL it returns its input unchanged. -/
theorem get_download_url_substring_characterization (u : Str) :
    (("dropbox.com".toList <:+: u ∧ "dl=0".toList <:+: u) →
      get_download_url u = replaceAll "dl=0".toList "dl=1".toList u ∧
        ¬ ("dl=0".toList <:+: get_download_url u)) ∧
    (¬ ("dropbox.com".toList <:+: u ∧ "dl=0".toList <:+: u) →
      get_download_url u = u) := by
  constructor
  · intro hc
    have he : get_download_url u = replaceAll "dl=0".toList "dl=1".toList u := by
      rw [get_download_url, if_pos hc]
    refine ⟨he, ?_⟩
    rw [he]
    exact replaceAll_dl0_clean u
  · intro hc
    rw [get_download_url, if_neg hc]

theorem get_download_url_substring_characterization_witness :
    ("dropbox.com".toList <:+: "https://www.dropbox.com/s/abc/photo.jpg?dl=0".toList ∧
      "dl=0".toList <:+: "https://www.dropbox.com/s/abc/photo.jpg?dl=0".toList) ∧
    (get_download_url "https://www.dropbox.com/s/abc/photo.jpg?dl=0".toList =
        replaceAll "dl=0".toList "dl=1".toList
          "https://www.dropbox.com/s/abc/photo.jpg?dl=0".toList ∧
      ¬ ("dl=0".toList <:+:
          get_download_url "https://www.dropbox.com/s/abc/photo.jpg?dl=0".toList)) :=
  ⟨by decide, (get_download_url_substring_characterization _).1 (by decide)⟩

/-- C3 counterexample: for a URL whose path ends in `/` the candidate is
empty, and `get_safe_filename` returns the empty string — the code never
tests for emptiness, so the hashing branch is not taken. -/
theorem get_safe_filename_empty_candidate :
    get_safe_filename "https://www.dropbox.com/s/abc/".toList = [] ∧
    filename_candidate "https://www.dropbox.com/s/abc/".toList = [] := by decide

/-- C3 (amended): `get_safe_filename` returns the last path segment of the
parsed URL stripped of any trailing query text, except when that candidate
is longer than 100 characters or contains a raw `?` or `&`; in those cases
it returns the lowercase-hex rendering of the 128-bit MD5 digest of the
full URL (32 hex characters) concatenated with the candidate's extension,
defaulting to `.jpg`.  An empty candidate is NOT hashed: it is returned as
the empty string. -/
theorem get_safe_filename_branch_characterization (u : Str) :
    (¬ (100 < (filename_candidate u).length ∨ '?' ∈ filename_candidate u ∨
        '&' ∈ filename_candidate u) →
      get_safe_filename u = filename_candidate u) ∧
    ((100 < (filename_candidate u).length ∨ '?' ∈ filename_candidate u ∨
        '&' ∈ filename_candidate u) →
      get_safe_filename u = md5_hexdigest u ++
          (if os_path_splitext_ext (filename_candidate u) = [] then ".jpg".toList
           else os_path_splitext_ext (filename_candidate u)) ∧
        (md5_hexdigest u).length = 32 ∧
        (∀ c ∈ md5_hexdigest u, c ∈ "0123456789abcdef".toList)) := by
  constructor
  · intro h
    rw [get_safe_filename_eq, if_neg h]
  · intro h
    exact ⟨by rw [get_safe_filename_eq, if_pos h], md5_hexdigest_length u,
      md5_hexdigest_mem u⟩

theorem get_safe_filename_branch_characterization_witness :
    (¬ (100 < (filename_candidate "https://www.dropbox.com/s/abc/photo.jpg?dl=0".toList).length ∨
        '?' ∈ filename_candidate "https://www.dropbox.com/s/abc/photo.jpg?dl=0".toList ∨
        '&' ∈ filename_candidate "https://www.dropbox.com/s/abc/photo.jpg?dl=0".toList) ∧
      get_safe_filename "https://www.dropbox.com/s/abc/photo.jpg?dl=0".toList =
        filename_candidate "https://www.dropbox.com/s/abc/photo.jpg?dl=0".toList) ∧
    ((100 < (filename_candidate "https://www.dropbox.com/a&b".toList).length ∨
        '?' ∈ filename_candidate "https://www.dropbox.com/a&b".toList ∨
        '&' ∈ filename_candidate "https://www.dropbox.com/a&b".toList) ∧
      (get_safe_filename "https://www.dropbox.com/a&b".toList =
          md5_hexdigest "https://www.dropbox.com/a&b".toList ++
            (if os_path_splitext_ext (filename_candidate "https://www.dropbox.com/a&b".toList) = []
             then ".jpg".toList
             else os_path_splitext_ext (filename_candidate "https://www.dropbox.com/a&b".toList)) ∧
        (md5_hexdigest "https://www.dropbox.com/a&b".toList).length = 32 ∧
        (∀ c ∈ md5_hexdigest "https://www.dropbox.com/a&b".toList,
          c ∈ "0123456789abcdef".toList))) :=
  ⟨⟨by decide, (get_safe_filename_branch_characterization _).1 (by decide)⟩,
   ⟨by decide, (get_safe_filename_branch_characterization _).2 (by decide)⟩⟩

/-- C10: `get_download_url` is idempotent — applying it to its own output
returns that output unchanged, because the output of a rewriting
application never again contains the preview marker `dl=0`. -/
theorem get_download_url_idempotent (u : Str) :
    get_download_url (get_download_url u) = get_download_url u := by
  by_cases hc : ("dropbox.com".toList <:+: u ∧ "dl=0".toList <:+: u)
  · unfold get_download_url
    rw [if_pos hc, if_neg]
    intro h
    exact replaceAll_dl0_clean u h.2
  · unfold get_download_url
    rw [if_neg hc, if_neg hc]

/-! ### Claims about the publisher, the orchestrator and the rewriter -/

/-- C4: publishing is idempotent with respect to the remote store.  For any
two successful fetches of the same URL (in the same or a later run, over an
arbitrary starting store), both publishes target the remote path derived
from the URL, the second publish performs an update of the existing object
(never a create), the set of stored paths does not grow on the second
publish — no duplicate object — and both calls report the same public URL. -/
theorem upload_to_github_idempotent (http₁ http₂ : Str → Nat → HttpResponse) (st : Store)
    (u : Str) (d₁ d₂ : Blob)
    (h₁ : download_image http₁ u = some d₁) (hne₁ : d₁ ≠ [])
    (h₂ : download_image http₂ u = some d₂) (hne₂ : d₂ ≠ []) :
    ∃ pub : Str,
      (upload_to_github http₁ st u).2.1.2 = some pub ∧
      (upload_to_github http₂ (upload_to_github http₁ st u).1 u).2.1.2 = some pub ∧
      (upload_to_github http₂ (upload_to_github http₁ st u).1 u).2.2 =
        some PublishAction.updated ∧
      (upload_to_github http₂ (upload_to_github http₁ st u).1 u).1.entries.map Prod.fst =
        (upload_to_github http₁ st u).1.entries.map Prod.fst := by
  refine ⟨github_pages_url (get_safe_filename u), ?_, ?_, ?_, ?_⟩
  · rw [upload_to_github_success http₁ st u d₁ h₁ hne₁]
  · rw [upload_to_github_success http₁ st u d₁ h₁ hne₁,
      upload_to_github_success http₂ _ u d₂ h₂ hne₂]
  · rw [upload_to_github_success http₁ st u d₁ h₁ hne₁,
      upload_to_github_success http₂ _ u d₂ h₂ hne₂]
    simp [assocGet_set_self]
  · rw [upload_to_github_success http₁ st u d₁ h₁ hne₁,
      upload_to_github_success http₂ _ u d₂ h₂ hne₂]
    exact assocSet_keys_of_found _ _ _ d₁ (assocGet_set_self _ _ _)

theorem upload_to_github_idempotent_witness :
    download_image (fun _ _ => HttpResponse.ok 200 [7])
      "https://www.dropbox.com/s/abc/photo.jpg?dl=0".toList = some [7] ∧
    ([7] : Blob) ≠ [] ∧
    ∃ pub : Str,
      (upload_to_github (fun _ _ => HttpResponse.ok 200 [7]) ⟨[]⟩
        "https://www.dropbox.com/s/abc/photo.jpg?dl=0".toList).2.1.2 = some pub ∧
      (upload_to_github (fun _ _ => HttpResponse.ok 200 [7])
        (upload_to_github (fun _ _ => HttpResponse.ok 200 [7]) ⟨[]⟩
          "https://www.dropbox.com/s/abc/photo.jpg?dl=0".toList).1
        "https://www.dropbox.com/s/abc/photo.jpg?dl=0".toList).2.1.2 = some pub ∧
      (upload_to_github (fun _ _ => HttpResponse.ok 200 [7])
        (upload_to_github (fun _ _ => HttpResponse.ok 200 [7]) ⟨[]⟩
          "https://www.dropbox.com/s/abc/photo.jpg?dl=0".toList).1
        "https://www.dropbox.com/s/abc/photo.jpg?dl=0".toList).2.2 =
        some PublishAction.updated ∧
      (upload_to_github (fun _ _ => HttpResponse.ok 200 [7])
        (upload_to_github (fun _ _ => HttpResponse.ok 200 [7]) ⟨[]⟩
          "https://www.dropbox.com/s/abc/photo.jpg?dl=0".toList).1
        "https://www.dropbox.com/s/abc/photo.jpg?dl=0".toList).1.entries.map Prod.fst =
      (upload_to_github (fun _ _ => HttpResponse.ok 200 [7]) ⟨[]⟩
        "https://www.dropbox.com/s/abc/photo.jpg?dl=0".toList).1.entries.map Prod.fst :=
  ⟨by decide, by decide,
    upload_to_github_idempotent _ _ ⟨[]⟩ _ [7] [7] (by decide) (by decide) (by decide)
      (by decide)⟩

/-- C5: round-trip.  Any entry of the accumulated mapping is exactly the
deterministic public URL
`https://alex-halloran.github.io/shopify-product-images/images/<quote(get_safe_filename(url))>`,
whose path ends in `images/` followed by the percent-escaped derived asset
name of the looked-up URL; and every collected URL whose fetch succeeds
with a non-empty body does obtain a mapping entry. -/
theorem mapping_roundtrip_form (http : Str → Nat → HttpResponse) (st : Store)
    (rows : List Row) (u : Str) :
    (∀ g, assocGet (process_csv_uploads http st rows).2 u = some g →
      g = github_pages_url (get_safe_filename u) ∧
      ∃ t, g = t ++ ("images/".toList ++ quote (get_safe_filename u))) ∧
    (u ∈ collect_dropbox_urls rows →
      (∃ d, download_image http u = some d ∧ d ≠ []) →
      ∃ g, assocGet (process_csv_uploads http st rows).2 u = some g) := by
  constructor
  · intro g hg
    have h := process_urls_inv http
      ((chunked BATCH_SIZE (collect_dropbox_urls rows)).flatten) st []
      (by intro k g' hk; simp [assocGet] at hk) u g hg
    exact ⟨h, "https://alex-halloran.github.io/shopify-product-images/".toList,
      by rw [h, github_pages_url_split]⟩
  · intro hm hd
    apply process_urls_present http _ st [] u _ hd
    rw [chunked_join BATCH_SIZE (by decide) (collect_dropbox_urls rows).length _ le_rfl]
    exact hm

theorem mapping_roundtrip_form_witness :
    assocGet (process_csv_uploads (fun _ _ => HttpResponse.ok 200 [7]) ⟨[]⟩
        [⟨some "https://www.dropbox.com/s/abc/photo.jpg?dl=0".toList, none⟩]).2
        "https://www.dropbox.com/s/abc/photo.jpg?dl=0".toList =
      some "https://alex-halloran.github.io/shopify-product-images/images/photo.jpg".toList ∧
    ("https://alex-halloran.github.io/shopify-product-images/images/photo.jpg".toList =
        github_pages_url
          (get_safe_filename "https://www.dropbox.com/s/abc/photo.jpg?dl=0".toList) ∧
      ∃ t, "https://alex-halloran.github.io/shopify-product-images/images/photo.jpg".toList =
        t ++ ("images/".toList ++
          quote (get_safe_filename "https://www.dropbox.com/s/abc/photo.jpg?dl=0".toList))) :=
  ⟨by decide,
    (mapping_roundtrip_form (fun _ _ => HttpResponse.ok 200 [7]) ⟨[]⟩
      [⟨some "https://www.dropbox.com/s/abc/photo.jpg?dl=0".toList, none⟩]
      "https://www.dropbox.com/s/abc/photo.jpg?dl=0".toList).1
      "https://alex-halloran.github.io/shopify-product-images/images/photo.jpg".toList
      (by decide)⟩

/-- C6: in the rewritten output table, for every row and each of the two
recognized image columns, the new mapped-URL column holds the mapped URL
when the original cell value is a key of the accumulated mapping, and holds
the empty value when the cell is absent or its value is not a key. -/
theorem rewrite_table_cell_semantics (m : List (Str × Str)) (rows : List Row) (i : Nat)
    (r : Row) (hr : rows[i]? = some r) :
    ∃ o : OutRow, (rewrite_table m rows)[i]? = some o ∧ o.row = r ∧
      (∀ v, r.image_src = some v →
        ((∃ g, assocGet m v = some g ∧ o.github_image_src = g) ∨
         (assocGet m v = none ∧ o.github_image_src = []))) ∧
      (r.image_src = none → o.github_image_src = []) ∧
      (∀ v, r.variant_image = some v →
        ((∃ g, assocGet m v = some g ∧ o.github_variant_image = g) ∨
         (assocGet m v = none ∧ o.github_variant_image = []))) ∧
      (r.variant_image = none → o.github_variant_image = []) := by
  refine ⟨rewrite_row m r, ?_, rfl, ?_, ?_, ?_, ?_⟩
  · simp [rewrite_table, hr]
  · intro v hv
    cases hg : assocGet m v with
    | some g => exact Or.inl ⟨g, rfl, by simp [rewrite_row, hv, hg]⟩
    | none => exact Or.inr ⟨rfl, by simp [rewrite_row, hv, hg]⟩
  · intro hv
    simp [rewrite_row, hv]
  · intro v hv
    cases hg : assocGet m v with
    | some g => exact Or.inl ⟨g, rfl, by simp [rewrite_row, hv, hg]⟩
    | none => exact Or.inr ⟨rfl, by simp [rewrite_row, hv, hg]⟩
  · intro hv
    simp [rewrite_row, hv]

theorem rewrite_table_cell_semantics_witness :
    ([(⟨some "u".toList, some "x".toList⟩ : Row)])[0]? =
      some (⟨some "u".toList, some "x".toList⟩ : Row) ∧
    ∃ o : OutRow,
      (rewrite_table [("u".toList, "g".toList)]
        [⟨some "u".toList, some "x".toList⟩])[0]? = some o ∧
      o.row = (⟨some "u".toList, some "x".toList⟩ : Row) ∧
      (∀ v, (⟨some "u".toList, some "x".toList⟩ : Row).image_src = some v →
        ((∃ g, assocGet [("u".toList, "g".toList)] v = some g ∧ o.github_image_src = g) ∨
         (assocGet [("u".toList, "g".toList)] v = none ∧ o.github_image_src = []))) ∧
      ((⟨some "u".toList, some "x".toList⟩ : Row).image_src = none →
        o.github_image_src = []) ∧
      (∀ v, (⟨some "u".toList, some "x".toList⟩ : Row).variant_image = some v →
        ((∃ g, assocGet [("u".toList, "g".toList)] v = some g ∧ o.github_variant_image = g) ∨
         (assocGet [("u".toList, "g".toList)] v = none ∧ o.github_variant_image = []))) ∧
      ((⟨some "u".toList, some "x".toList⟩ : Row).variant_image = none →
        o.github_variant_image = []) :=
  ⟨rfl, rewrite_table_cell_semantics [("u".toList, "g".toList)]
    [⟨some "u".toList, some "x".toList⟩] 0 _ rfl⟩

/-- C7: deduplication.  The candidate list extracted by the COLLECT phase
contains each URL at most once (it has no duplicates), the batched loop
traverses exactly the concatenation of the batches, which restores the
candidate list, and hence each candidate URL is submitted to
fetch/publish exactly once per run (count one for members, zero for
non-members, over the processed sequence). -/
theorem collect_dedup_single_submission (rows : List Row) :
    (collect_dropbox_urls rows).Nodup ∧
    (chunked BATCH_SIZE (collect_dropbox_urls rows)).flatten = collect_dropbox_urls rows ∧
    ∀ u : Str, ((chunked BATCH_SIZE (collect_dropbox_urls rows)).flatten.count u =
      if u ∈ collect_dropbox_urls rows then 1 else 0) := by
  have hnd : (collect_dropbox_urls rows).Nodup := collect_fold_nodup rows [] List.nodup_nil
  have hj : (chunked BATCH_SIZE (collect_dropbox_urls rows)).flatten =
      collect_dropbox_urls rows :=
    chunked_join BATCH_SIZE (by decide) _ _ le_rfl
  refine ⟨hnd, hj, ?_⟩
  intro u
  rw [hj]
  exact count_nodup_eq (collect_dropbox_urls rows) hnd u

/-- C8: the blob fetcher never raises past its boundary.  For every
transport oracle and URL, `download_image` returns either the fetched
bytes or the explicit failure value `none`; any 4xx/5xx status (what
`raise_for_status` raises for) and any transport exception yield `none`;
a successful return carries exactly the transported body; and the result
depends on the oracle only through the single request issued at the
direct-download URL with the fixed timeout 30. -/
theorem download_image_never_raises (http : Str → Nat → HttpResponse) (url : Str) :
    (download_image http url = none ∨ ∃ b, download_image http url = some b) ∧
    (∀ s c, http (get_download_url url) 30 = HttpResponse.ok s c →
      400 ≤ s → s < 600 → download_image http url = none) ∧
    (http (get_download_url url) 30 = HttpResponse.exn → download_image http url = none) ∧
    (∀ b, download_image http url = some b →
      ∃ s, http (get_download_url url) 30 = HttpResponse.ok s b ∧ ¬ (400 ≤ s ∧ s < 600)) ∧
    (∀ http' : Str → Nat → HttpResponse,
      http (get_download_url url) 30 = http' (get_download_url url) 30 →
      download_image http url = download_image http' url) := by
  refine ⟨?_, ?_, ?_, ?_, ?_⟩
  · cases hres : http (get_download_url url) 30 with
    | ok s c =>
      by_cases hs : 400 ≤ s ∧ s < 600
      · exact Or.inl (by simp [download_image, hres, hs])
      · exact Or.inr ⟨c, by simp [download_image, hres, hs]⟩
    | exn => exact Or.inl (by simp [download_image, hres])
  · intro s c hres h4 h6
    simp [download_image, hres, h4, h6]
  · intro hres
    simp [download_image, hres]
  · intro b hb
    cases hres : http (get_download_url url) 30 with
    | ok s c =>
      by_cases hs : 400 ≤ s ∧ s < 600
      · simp only [download_image, hres, if_pos hs] at hb
        exact Option.noConfusion hb
      · simp only [download_image, hres, if_neg hs] at hb
        obtain rfl := Option.some.inj hb
        exact ⟨s, rfl, hs⟩
    | exn =>
      simp only [download_image, hres] at hb
      exact Option.noConfusion hb
  · intro http' heq
    unfold download_image
    rw [heq]

theorem download_image_never_raises_witness :
    (fun (_ : Str) (_ : Nat) => HttpResponse.ok 500 ([] : Blob))
        (get_download_url "https://www.dropbox.com/s/a/x.jpg?dl=0".toList) 30 =
      HttpResponse.ok 500 [] ∧
    download_image (fun _ _ => HttpResponse.ok 500 [])
      "https://www.dropbox.com/s/a/x.jpg?dl=0".toList = none :=
  ⟨rfl, (download_image_never_raises _ _).2.1 500 [] rfl (by decide) (by decide)⟩

/-- C9: process exit behaviour.  When invoked with an argument count other
than exactly one input filename (`len(sys.argv) != 2` with the script name
included), the program exits with status 1 before any processing; every
other invocation that completes exits with status 0, for every transport
oracle — in particular even when every asset fails to fetch. -/
theorem main_invocation_exit_behaviour (http : Str → Nat → HttpResponse) (st : Store)
    (argv : List Str) (rows : List Row) :
    (argv.length ≠ 2 → main_invocation http st argv rows = (1, none)) ∧
    (argv.length = 2 → (main_invocation http st argv rows).1 = 0) := by
  constructor
  · intro h
    rw [main_invocation, if_pos h]
  · intro h
    rw [main_invocation, if_neg (by omega)]

theorem main_invocation_exit_behaviour_witness :
    main_invocation (fun _ _ => HttpResponse.exn) ⟨[]⟩ ["simple_upload.py".toList] [] =
      (1, none) ∧
    (main_invocation (fun _ _ => HttpResponse.exn) ⟨[]⟩
      ["simple_upload.py".toList, "products.csv".toList]
      [⟨some "https://www.dropbox.com/s/a/x.jpg?dl=0".toList, none⟩]).1 = 0 :=
  ⟨(main_invocation_exit_behaviour _ _ _ _).1 (by decide),
   (main_invocation_exit_behaviour _ _ _ _).2 rfl⟩
